import Mathlib

/-!
# TestWeaver core — shallow embedding and verification

A Lean 4 embedding of the TestWeaver core pipeline (directive lexer, source
scanner / IR builder, cross-file merger, IR validator, file-level validator,
idempotent writes), translated from the TypeScript sources:

* `packages/testweaver/src/config/index.ts` (directive lexer and `scanFile`)
* `packages/testweaver/src/generators/ir-validator.ts` (`validateIR`)
* `packages/testweaver/src/validation/validator.ts` (`validateFiles`)
* the CLI entry point (`scanAllFiles` suite merge, `writeFileIfChanged`)

JavaScript strings are modelled as Lean `String`; the handful of string
primitives the code uses (`split`, `trim`, `toLowerCase`, `indexOf`/
`substring`, `replace`) are implemented structurally over `String.data`
so that concrete runs reduce in the kernel.
-/

namespace TestWeaver

/-! ## String primitives (JS semantics, structural over `List Char`) -/

/-- Split a character list at every occurrence of `c` (JS `String.split`). -/
def splitCharAux (c : Char) : List Char → List Char → List (List Char)
  | [], acc => [acc.reverse]
  | x :: xs, acc =>
    if x = c then acc.reverse :: splitCharAux c xs []
    else splitCharAux c xs (x :: acc)

/-- JS `s.split(c)` for a single-character separator. -/
def splitOnChar (c : Char) (s : String) : List String :=
  (splitCharAux c s.data []).map List.asString

/-- JS `String.prototype.trim` (whitespace at both ends). -/
def jsTrim (s : String) : String :=
  (((s.data.dropWhile Char.isWhitespace).reverse.dropWhile Char.isWhitespace).reverse).asString

/-- JS `String.prototype.toLowerCase` (ASCII case folding suffices here). -/
def jsToLower (s : String) : String :=
  (s.data.map Char.toLower).asString

/-- Split at the first occurrence of `c`: JS
`indexOf(c) === -1 ? none : (substring(0, i), substring(i + 1))`. -/
def breakAtCharAux (c : Char) : List Char → Option (List Char × List Char)
  | [] => none
  | x :: xs =>
    if x = c then some ([], xs)
    else (breakAtCharAux c xs).map (fun p => (x :: p.1, p.2))

/-- `breakAtChar c s`: `none` when `s.indexOf(c) === -1`, otherwise the two
substrings around the first occurrence. -/
def breakAtChar (c : Char) (s : String) : Option (String × String) :=
  (breakAtCharAux c s.data).map (fun p => (p.1.asString, p.2.asString))

/-- JS `s.replace(/_/g, "-")`. -/
def underscoresToHyphens (s : String) : String :=
  (s.data.map (fun ch => if ch = '_' then '-' else ch)).asString

/-- JS `s.replace` deleting every hyphen (global hyphen regex). -/
def removeHyphens (s : String) : String :=
  (s.data.filter (fun ch => ch ≠ '-')).asString

/-- `prefixChars n h`: `n` is a prefix of `h`. -/
def prefixChars : List Char → List Char → Bool
  | [], _ => true
  | _ :: _, [] => false
  | a :: as, b :: bs => a = b && prefixChars as bs

/-- `infixChars n h`: `n` occurs contiguously inside `h`. -/
def infixChars (needle : List Char) : List Char → Bool
  | [] => prefixChars needle []
  | c :: rest => prefixChars needle (c :: rest) || infixChars needle rest

/-- JS `haystack.includes(needle)` on strings. -/
def containsSubstr (haystack needle : String) : Bool :=
  infixChars needle.data haystack.data

/-! ## IR data model (from `types/ir.ts`)

Optional metadata fields that no modelled code path ever reads or writes
(`description`, `meta`, `tags`, `delayMs`, `options`, `usesPatterns`) are
omitted. `TestStep.selector` is `Option Selector`: the TS type requires it,
but `validateIR` defensively checks for its absence at runtime, so the
runtime shape is optional; the scanner always populates it. -/

inductive StepAction where
  | click | type | change | focus | blur | key | select | hover | clear
  | custom | waitFor | submitContext
deriving DecidableEq, Repr

inductive ExpectType where
  | visible | notVisible | exists_ | notExists | text | exactText | value
  | hasClass | notHasClass | aria | urlContains | urlExact | snapshot | custom
deriving DecidableEq, Repr

inductive SelectorType where
  | css | testId | role | labelText | placeholder | custom
deriving DecidableEq, Repr

inductive ViaKind where
  | attrib | comment | pattern
deriving DecidableEq, Repr

inductive Framework where
  | react | vue | svelte | html
deriving DecidableEq, Repr

inductive Language where
  | js | ts | tsx | jsx | html | svelte | vue
deriving DecidableEq, Repr

inductive TestCaseType where
  | ui | unit | e2e
deriving DecidableEq, Repr

structure Selector where
  type : SelectorType
  value : String
deriving DecidableEq, Repr

structure LocationRef where
  filePath : String
  line : Nat
  column : Nat
  via : ViaKind
  raw : Option String := none
deriving DecidableEq, Repr

structure SourceRef where
  filePath : String
  framework : Framework
  language : Language
deriving DecidableEq, Repr

structure TestStep where
  id : String
  action : StepAction
  selector : Option Selector
  value : Option String := none
  source : Option LocationRef := none
deriving DecidableEq, Repr

structure TestExpectation where
  id : String
  type : ExpectType
  selector : Option Selector := none
  value : Option String := none
  source : Option LocationRef := none
deriving DecidableEq, Repr

structure TestCase where
  id : String
  context : String
  scenario : String
  type : TestCaseType
  route : Option String := none
  definedAt : List LocationRef
  steps : List TestStep
  expectations : List TestExpectation
deriving DecidableEq, Repr

structure TestSuite where
  id : String
  context : String
  sourceFiles : List SourceRef
  cases : List TestCase
deriving DecidableEq, Repr

structure TestIR where
  version : Nat
  generatedAt : String
  sourceRoot : String
  suites : List TestSuite
deriving DecidableEq, Repr

/-! ## Directive lexer (from `parseStepDsl` / `parseExpectDsl`) -/

/-- Parsed step from DSL (`ParsedStep` in the source). -/
structure ParsedStep where
  action : StepAction
  value : Option String := none
deriving DecidableEq, Repr

/-- Parsed expectation from DSL (`ParsedExpectation` in the source). -/
structure ParsedExpectation where
  type : ExpectType
  value : Option String := none
deriving DecidableEq, Repr

/-- The exact string list of `isValidStepAction`.  Note the source compares
the *lower-cased* action against this list, so the mixed-case entries
`"waitFor"` and `"submitContext"` can never match. -/
def validStepActionStrings : List String :=
  ["click", "type", "change", "focus", "blur", "key", "custom",
   "waitFor", "submitContext"]

/-- Maps a matched action string to the `StepAction` enum (the source casts
the string after the `includes` test; the two are kept in lock-step). -/
def stepActionOfString? (s : String) : Option StepAction :=
  if s = "click" then some .click
  else if s = "type" then some .type
  else if s = "change" then some .change
  else if s = "focus" then some .focus
  else if s = "blur" then some .blur
  else if s = "key" then some .key
  else if s = "custom" then some .custom
  else if s = "waitFor" then some .waitFor
  else if s = "submitContext" then some .submitContext
  else none

/-- `isValidStepAction` from the source. -/
def isValidStepAction (s : String) : Bool :=
  validStepActionStrings.contains s

/-- `dsl.split(";").map((s) => s.trim()).filter(Boolean)` — the segment
pipeline shared by `parseStepDsl` and `parseExpectDsl`. -/
def splitDirective (dsl : String) : List String :=
  ((splitOnChar ';' dsl).map jsTrim).filter (fun t => t ≠ "")

/-- The step name a segment is matched on: the whole segment lower-cased if
it has no colon, otherwise the part before the first colon, trimmed and
lower-cased. -/
def stepNameOf (part : String) : String :=
  match breakAtChar ':' part with
  | none => jsToLower part
  | some (pre, _) => jsToLower (jsTrim pre)

/-- Loop body of `parseStepDsl` for a single segment. -/
def parseStepSegment (part : String) : ParsedStep :=
  match breakAtChar ':' part with
  | none =>
    match stepActionOfString? (jsToLower part) with
    | some a => { action := a }
    | none => { action := .custom, value := some part }
  | some (pre, post) =>
    match stepActionOfString? (jsToLower (jsTrim pre)) with
    | some a => { action := a, value := some (jsTrim post) }
    | none => { action := .custom, value := some part }

/-- `parseStepDsl` from the source: split on `;`, trim, drop empties, and
turn each segment into one `ParsedStep` (unknown actions degrade to
`custom` carrying the raw segment).  Total by construction. -/
def parseStepDsl (dsl : String) : List ParsedStep :=
  (splitDirective dsl).map parseStepSegment

/-- The exact `validTypes` list of `normalizeExpectType`, as strings. -/
def expectTypeOfString? (s : String) : Option ExpectType :=
  if s = "visible" then some .visible
  else if s = "not-visible" then some .notVisible
  else if s = "exists" then some .exists_
  else if s = "not-exists" then some .notExists
  else if s = "text" then some .text
  else if s = "exact-text" then some .exactText
  else if s = "value" then some .value
  else if s = "has-class" then some .hasClass
  else if s = "not-has-class" then some .notHasClass
  else if s = "aria" then some .aria
  else if s = "url-contains" then some .urlContains
  else if s = "url-exact" then some .urlExact
  else if s = "snapshot" then some .snapshot
  else if s = "custom" then some .custom
  else none

/-- The alias table of `normalizeExpectType`, keyed by the normalized name
with hyphens removed. -/
def expectAliasOfString? (s : String) : Option ExpectType :=
  if s = "notvisible" then some .notVisible
  else if s = "notexists" then some .notExists
  else if s = "exacttext" then some .exactText
  else if s = "hasclass" then some .hasClass
  else if s = "nothasclass" then some .notHasClass
  else if s = "urlcontains" then some .urlContains
  else if s = "urlexact" then some .urlExact
  else none

/-- `normalizeExpectType` from the source: lower-case, `_` → `-`, exact
match against the valid list, else alias lookup on the hyphen-less form,
else `null`. -/
def normalizeExpectType (t : String) : Option ExpectType :=
  let normalized := underscoresToHyphens (jsToLower t)
  match expectTypeOfString? normalized with
  | some ty => some ty
  | none => expectAliasOfString? (removeHyphens normalized)

/-- The expectation name a segment is normalized from (before
`normalizeExpectType`): whole segment if no colon, else the trimmed part
before the first colon. -/
def expectNameOf (part : String) : String :=
  match breakAtChar ':' part with
  | none => part
  | some (pre, _) => jsTrim pre

/-- Loop body of `parseExpectDsl` for a single segment: `none` means the
segment is dropped (unknown type). -/
def parseExpectSegment (part : String) : Option ParsedExpectation :=
  match breakAtChar ':' part with
  | none =>
    (normalizeExpectType part).map (fun ty => { type := ty })
  | some (pre, post) =>
    (normalizeExpectType (jsTrim pre)).map
      (fun ty => { type := ty, value := some (jsTrim post) })

/-- `parseExpectDsl` from the source: split on `;`, trim, drop empties, and
keep only segments whose type normalizes; unknown types are silently
dropped. -/
def parseExpectDsl (dsl : String) : List ParsedExpectation :=
  (splitDirective dsl).filterMap parseExpectSegment

/-- Spec-side count: "the number of non-empty `;`-separated segments in `s`
(segments trimmed, empty segments discarded)" — written from the spec's
words, to be compared against the lexer. -/
def segmentCountSpec (s : String) : Nat :=
  ((((splitCharAux ';' s.data []).map List.asString).map jsTrim).filter
    (fun t => t ≠ "")).length

/-! ## Source scanner (from `scanFile`)

The Babel parse of a source file is represented as a forest of JSX
elements; an `Element` carries its opening element's string-valued
attributes (in source order), the opening element's source position, and
its child elements.  Babel's `traverse` visits `JSXOpeningElement` nodes
in document order, i.e. a pre-order walk of this forest.  The two types
are a mutual pair (instead of `children : List Element`) so that the
traversal functions are structurally recursive and reduce in the kernel. -/

mutual
inductive Element : Type where
  | mk (attrs : List (String × String)) (line column : Nat)
       (children : ElementList) : Element
inductive ElementList : Type where
  | nil : ElementList
  | cons (e : Element) (rest : ElementList) : ElementList
end

mutual
/-- All elements of a subtree in document (pre-)order, the root first. -/
def elemPre : Element → List Element
  | .mk a ln c ch => .mk a ln c ch :: listPre ch
/-- All elements of a forest in document (pre-)order. -/
def listPre : ElementList → List Element
  | .nil => []
  | .cons e rest => elemPre e ++ listPre rest
end

/-- The `DSL_ATTRS` table from the source. -/
def dslContextAttr : String := "data-test-context"
def dslScenarioAttr : String := "data-test-scenario"
def dslRouteAttr : String := "data-test-route"
def dslIdAttr : String := "data-test-id"
def dslStepAttr : String := "data-test-step"
def dslExpectAttr : String := "data-test-expect"

/-- `extractAttribute`: the value of the first attribute with the given
name.  (Attributes whose value is not a string literal yield `undefined`
in the source and are simply absent from the modelled attribute list.) -/
def extractAttribute (attrs : List (String × String)) (name : String) : Option String :=
  (attrs.find? (fun a => a.1 == name)).map (fun a => a.2)

/-- `ChildElementData` from the source. -/
structure ChildElementData where
  testId : Option String := none
  steps : List ParsedStep
  expectations : List ParsedExpectation
  location : LocationRef
deriving DecidableEq, Repr

/-- `ContextElementData` from the source. -/
structure ContextElementData where
  context : String
  scenario : Option String := none
  route : Option String := none
  location : LocationRef
  children : List ChildElementData
deriving DecidableEq, Repr

/-- `createLocationRef` from the source (`via` is always `"attribute"`). -/
def createLocationRef (filePath : String) (line column : Nat)
    (raw : Option String) : LocationRef :=
  { filePath := filePath, line := line, column := column, via := .attrib, raw := raw }

/-- The descendant-collection body of `scanFile`'s inner traversal: an
element with at least one of the id/step/expect attributes becomes a
`ChildElementData`; others are ignored. -/
def childDataOf (filePath : String) : Element → Option ChildElementData
  | .mk attrs ln col _ =>
    let testId := extractAttribute attrs dslIdAttr
    let stepDsl := extractAttribute attrs dslStepAttr
    let expectDsl := extractAttribute attrs dslExpectAttr
    if testId.isSome || stepDsl.isSome || expectDsl.isSome then
      some { testId := testId
             steps := match stepDsl with | some d => parseStepDsl d | none => []
             expectations := match expectDsl with | some d => parseExpectDsl d | none => []
             location := createLocationRef filePath ln col
               ((testId <|> stepDsl) <|> expectDsl) }
    else none

/-- The context-collection body of `scanFile`'s outer traversal: an element
carrying `data-test-context` yields a `ContextElementData` whose children
are collected from a scoped sub-traversal of its descendant subtree (the
context's own opening element is skipped). -/
def contextDataOfElem (filePath : String) : Element → Option ContextElementData
  | .mk attrs ln col ch =>
    match extractAttribute attrs dslContextAttr with
    | none => none
    | some ctx =>
      some { context := ctx
             scenario := extractAttribute attrs dslScenarioAttr
             route := extractAttribute attrs dslRouteAttr
             location := createLocationRef filePath ln col (some ("context=" ++ ctx))
             children := (listPre ch).filterMap (childDataOf filePath) }

/-- First pass of `scanFile`: every context element of the file, in
document order. -/
def contextElementsOf (filePath : String) (roots : ElementList) : List ContextElementData :=
  (listPre roots).filterMap (contextDataOfElem filePath)

/-! ## IR builder (second half of `scanFile`) -/

/-- `createSelector` from the source. -/
def createSelector (testId : String) : Selector :=
  { type := .testId, value := testId }

/-- `generateCaseId` from the source. -/
def generateCaseId (context scenario : String) : String :=
  context ++ "__" ++ scenario

/-- `generateStepId` from the source. -/
def generateStepId (index : Nat) : String :=
  "step-" ++ toString (index + 1)

/-- `generateExpectId` from the source. -/
def generateExpectId (index : Nat) : String :=
  "exp-" ++ toString (index + 1)

/-- Suffix after the last dot, with the dot (`path.extname`, adequate for
file names whose directories contain no dots). -/
def extnameAux : List Char → Option (List Char)
  | [] => none
  | c :: rest =>
    match extnameAux rest with
    | some suf => some suf
    | none => if c = '.' then some rest else none

/-- `path.extname`-style extension of a path. -/
def extname (p : String) : String :=
  match extnameAux p.data with
  | some suf => "." ++ suf.asString
  | none => ""

/-- `getLanguageFromPath` from the source (default `tsx`). -/
def getLanguageFromPath (filePath : String) : Language :=
  let ext := jsToLower (extname filePath)
  if ext = ".tsx" then .tsx
  else if ext = ".jsx" then .jsx
  else if ext = ".ts" then .ts
  else if ext = ".js" then .js
  else if ext = ".vue" then .vue
  else if ext = ".svelte" then .svelte
  else if ext = ".html" then .html
  else .tsx

/-- The inner step loop of `scanFile` for one child that has a test id:
each parsed step becomes a `TestStep` with the running step index. Returns
the steps and the updated index. -/
def buildStepList (tid : String) (loc : LocationRef) :
    List ParsedStep → Nat → List TestStep × Nat
  | [], si => ([], si)
  | p :: ps, si =>
    let s : TestStep :=
      { id := generateStepId si, action := p.action,
        selector := some (createSelector tid), value := p.value,
        source := some loc }
    let rest := buildStepList tid loc ps (si + 1)
    (s :: rest.1, rest.2)

/-- The inner expectation loop of `scanFile` for one child: each parsed
expectation becomes a `TestExpectation`; its selector is present exactly
when the child has a test id. -/
def buildExpectList (tid : Option String) (loc : LocationRef) :
    List ParsedExpectation → Nat → List TestExpectation × Nat
  | [], ei => ([], ei)
  | p :: ps, ei =>
    let e : TestExpectation :=
      { id := generateExpectId ei, type := p.type,
        selector := tid.map createSelector, value := p.value,
        source := some loc }
    let rest := buildExpectList tid loc ps (ei + 1)
    (e :: rest.1, rest.2)

/-- The child loop of `scanFile`: steps of a child without a test id are
skipped (the index does not advance); expectations are always collected. -/
def collectChildren : List ChildElementData → Nat → Nat →
    List TestStep × List TestExpectation
  | [], _, _ => ([], [])
  | c :: rest, si, ei =>
    let stepsPair :=
      match c.testId with
      | none => (([] : List TestStep), si)
      | some tid => buildStepList tid c.location c.steps si
    let expectsPair := buildExpectList c.testId c.location c.expectations ei
    let tail := collectChildren rest stepsPair.2 expectsPair.2
    (stepsPair.1 ++ tail.1, expectsPair.1 ++ tail.2)

/-- The `TestCase` built for one context element (`scenario` defaults to
`"default"`; `type` is `e2e` exactly when a route is present). -/
def buildCase (cd : ContextElementData) : TestCase :=
  let scenarioName := cd.scenario.getD "default"
  let se := collectChildren cd.children 0 0
  { id := generateCaseId cd.context scenarioName
    context := cd.context
    scenario := scenarioName
    type := if cd.route.isSome then .e2e else .ui
    route := cd.route
    definedAt := [cd.location]
    steps := se.1
    expectations := se.2 }

/-- The `SourceRef` a new suite is created with. -/
def sourceRefFor (filePath : String) : SourceRef :=
  { filePath := filePath, framework := .react,
    language := getLanguageFromPath filePath }

/-- One iteration of `scanFile`'s suite-building loop: fetch the suite for
this context from the map (here: the unique list entry with that context)
or create it, then push the freshly built case.  Pushing is unconditional:
cases are never merged by id within a file. -/
def addContextData (filePath : String) (suites : List TestSuite)
    (cd : ContextElementData) : List TestSuite :=
  if suites.any (fun s => s.context == cd.context) then
    suites.map (fun s =>
      if s.context == cd.context then { s with cases := s.cases ++ [buildCase cd] }
      else s)
  else
    suites ++ [{ id := cd.context, context := cd.context,
                 sourceFiles := [sourceRefFor filePath],
                 cases := [buildCase cd] }]

/-- The suite-building fold of `scanFile`. -/
def buildTestSuites (filePath : String) (ces : List ContextElementData) :
    List TestSuite :=
  ces.foldl (addContextData filePath) []

/-- `scanFile` with the Babel parse of the file supplied as an `Element`
forest (reading and parsing the file are the only effects of the original;
everything after the parse is modelled here). -/
def scanElementsFile (filePath : String) (roots : ElementList) : List TestSuite :=
  buildTestSuites filePath (contextElementsOf filePath roots)

/-! ## Cross-file merger (from `scanAllFiles` in the CLI entry point) -/

/-- One case push of `scanAllFiles`: skipped when a case with the same id
is already present in the merged suite. -/
def insertCaseDedup (cs : List TestCase) (c : TestCase) : List TestCase :=
  if cs.any (fun e => e.id == c.id) then cs else cs ++ [c]

/-- The `for (const newCase of suite.cases)` loop of `scanAllFiles`. -/
def insertCasesDedup (acc : List TestCase) (cs : List TestCase) : List TestCase :=
  cs.foldl insertCaseDedup acc

/-- One source-file push of `scanAllFiles`: skipped when a source file with
the same `filePath` is already present. -/
def insertSourceDedup (sfs : List SourceRef) (sf : SourceRef) : List SourceRef :=
  if sfs.any (fun e => e.filePath == sf.filePath) then sfs else sfs ++ [sf]

/-- The `for (const sourceFile of suite.sourceFiles)` loop of
`scanAllFiles`. -/
def insertSourcesDedup (acc : List SourceRef) (sfs : List SourceRef) : List SourceRef :=
  sfs.foldl insertSourceDedup acc

/-- One iteration of `scanAllFiles`'s suite loop: merge the suite into the
existing suite with the same context (cases deduplicated by id, source
files deduplicated by file path), or register it as a new suite. -/
def mergeSuiteInto (acc : List TestSuite) (s : TestSuite) : List TestSuite :=
  if acc.any (fun e => e.context == s.context) then
    acc.map (fun e =>
      if e.context == s.context then
        { e with cases := insertCasesDedup e.cases s.cases,
                 sourceFiles := insertSourcesDedup e.sourceFiles s.sourceFiles }
      else e)
  else acc ++ [s]

/-- The suite-merging loop of `scanAllFiles` over per-file fragments (each
inner list is the `scanFile` output for one source file, processed in
order; files are processed one after the other, suites within a file in
order).  File reading, the `try`/`catch` around a failing parse, and the
`TestIR` envelope (timestamp, source root) around the merged suites are
orchestration outside this model. -/
def mergeFileFragments (fragments : List (List TestSuite)) : List TestSuite :=
  fragments.flatten.foldl mergeSuiteInto []

/-! ## Idempotent writes (`writeFileIfChanged` in the CLI entry point) -/

/-- The file system visible to `writeFileIfChanged`: contents by path
(`none` = the file does not exist). -/
def FileSystem : Type := String → Option String

/-- `fs.writeFileSync(filePath, content)`. -/
def writeFs (fs : FileSystem) (filePath content : String) : FileSystem :=
  fun q => if q = filePath then some content else fs q

/-- `writeFileIfChanged` from the source: when the file exists its content
is read and compared byte-for-byte; the write is skipped (returning
`false`) when equal, performed (returning `true`) otherwise or when the
file does not exist. -/
def writeFileIfChanged (fs : FileSystem) (filePath content : String) :
    FileSystem × Bool :=
  match fs filePath with
  | some existing =>
    if existing = content then (fs, false)
    else (writeFs fs filePath content, true)
  | none => (writeFs fs filePath content, true)

/-! ## IR validator (from `generators/ir-validator.ts`) -/

/-- Issue/message severity (`IssueSeverity` in `ir-validator.ts`,
`ValidationSeverity` in `validation/validator.ts` — the same three-valued
type). -/
inductive Severity where
  | error | warning | info
deriving DecidableEq, Repr

/-- `ValidationIssue` from `ir-validator.ts`. -/
structure ValidationIssue where
  severity : Severity
  message : String
  context : Option String := none
deriving DecidableEq, Repr

/-- `IRValidationResult` from `ir-validator.ts`. -/
structure IRValidationResult where
  valid : Bool
  issues : List ValidationIssue
  errorCount : Nat
  warningCount : Nat
deriving DecidableEq, Repr

/-- `SUPPORTED_STEP_ACTIONS` (every enum member). -/
def supportedStepActions : List StepAction :=
  [.click, .type, .change, .focus, .blur, .key, .select, .hover, .clear,
   .waitFor, .submitContext, .custom]

/-- `SUPPORTED_EXPECT_TYPES` (every enum member). -/
def supportedExpectTypes : List ExpectType :=
  [.visible, .notVisible, .exists_, .notExists, .text, .exactText, .value,
   .hasClass, .notHasClass, .aria, .urlContains, .urlExact, .snapshot, .custom]

/-- The TS string literal of a `StepAction` (for message interpolation). -/
def actionString : StepAction → String
  | .click => "click" | .type => "type" | .change => "change"
  | .focus => "focus" | .blur => "blur" | .key => "key"
  | .select => "select" | .hover => "hover" | .clear => "clear"
  | .custom => "custom" | .waitFor => "waitFor" | .submitContext => "submitContext"

/-- The TS string literal of an `ExpectType` (for message interpolation). -/
def expectTypeString : ExpectType → String
  | .visible => "visible" | .notVisible => "not-visible"
  | .exists_ => "exists" | .notExists => "not-exists"
  | .text => "text" | .exactText => "exact-text" | .value => "value"
  | .hasClass => "has-class" | .notHasClass => "not-has-class"
  | .aria => "aria" | .urlContains => "url-contains" | .urlExact => "url-exact"
  | .snapshot => "snapshot" | .custom => "custom"

/-- `actionsRequiringValue` from `validateStep`. -/
def actionsRequiringValue : List StepAction := [.type, .change, .key, .select]

/-- `selectorlessTypes` from `validateExpectation`. -/
def selectorlessTypes : List ExpectType := [.urlContains, .urlExact]

/-- `valuesRequiringTypes` from `validateExpectation`. -/
def valuesRequiringTypes : List ExpectType :=
  [.text, .exactText, .value, .hasClass, .notHasClass, .aria,
   .urlContains, .urlExact]

/-- `validateStep` from the source.  JS `!step.id` is truthy-falsy on a
string, i.e. the empty string; `!step.selector` is absence. -/
def validateStep (step : TestStep) (context : String) : List ValidationIssue :=
  (if step.id = "" then
    [{ severity := .error, message := "Step is missing an ID",
       context := some context }] else [])
  ++ (if step.selector = none then
    [{ severity := .error,
       message := "Step \"" ++ step.id ++ "\" is missing a selector",
       context := some context }] else [])
  ++ (if supportedStepActions.contains step.action then [] else
    [{ severity := .warning,
       message := "Step \"" ++ step.id ++ "\" has unsupported action \""
         ++ actionString step.action ++ "\". Will be treated as custom.",
       context := some context }])
  ++ (if actionsRequiringValue.contains step.action ∧ step.value = none then
    [{ severity := .warning,
       message := "Step \"" ++ step.id ++ "\" with action \""
         ++ actionString step.action ++ "\" is missing a value",
       context := some context }] else [])

/-- `validateExpectation` from the source. -/
def validateExpectation (expectation : TestExpectation) (context : String) :
    List ValidationIssue :=
  (if expectation.id = "" then
    [{ severity := .error, message := "Expectation is missing an ID",
       context := some context }] else [])
  ++ (if supportedExpectTypes.contains expectation.type then [] else
    [{ severity := .warning,
       message := "Expectation \"" ++ expectation.id ++ "\" has unsupported type \""
         ++ expectTypeString expectation.type ++ "\". Will be treated as custom.",
       context := some context }])
  ++ (if ¬ selectorlessTypes.contains expectation.type ∧ expectation.selector = none then
    [{ severity := .warning,
       message := "Expectation \"" ++ expectation.id ++ "\" of type \""
         ++ expectTypeString expectation.type ++ "\" is missing a selector",
       context := some context }] else [])
  ++ (if valuesRequiringTypes.contains expectation.type ∧ expectation.value = none then
    [{ severity := .warning,
       message := "Expectation \"" ++ expectation.id ++ "\" of type \""
         ++ expectTypeString expectation.type ++ "\" is missing a value",
       context := some context }] else [])

/-- `validateTestCase` from the source. -/
def validateTestCase (testCase : TestCase) (context : String) : List ValidationIssue :=
  let caseContext := context ++ " > case \"" ++ testCase.id ++ "\""
  (if testCase.id = "" then
    [{ severity := .error, message := "TestCase is missing an ID",
       context := some context }] else [])
  ++ (if testCase.context = "" then
    [{ severity := .error,
       message := "TestCase \"" ++ testCase.id ++ "\" is missing a context",
       context := some caseContext }] else [])
  ++ (if testCase.scenario = "" then
    [{ severity := .warning,
       message := "TestCase \"" ++ testCase.id
         ++ "\" is missing a scenario name, using default",
       context := some caseContext }] else [])
  ++ (if testCase.steps.length = 0 ∧ testCase.expectations.length = 0 then
    [{ severity := .info,
       message := "TestCase \"" ++ testCase.id ++ "\" has no steps or expectations",
       context := some caseContext }] else [])
  ++ testCase.steps.flatMap (fun s => validateStep s caseContext)
  ++ testCase.expectations.flatMap (fun e => validateExpectation e caseContext)

/-- `validateTestSuite` from the source. -/
def validateTestSuite (suite : TestSuite) : List ValidationIssue :=
  let context := "suite \"" ++ suite.id ++ "\""
  (if suite.id = "" then
    [{ severity := .error, message := "TestSuite is missing an ID",
       context := some "root" }] else [])
  ++ (if suite.context = "" then
    [{ severity := .error,
       message := "TestSuite \"" ++ suite.id ++ "\" is missing a context",
       context := some context }] else [])
  ++ (if suite.cases.length = 0 then
    [{ severity := .warning,
       message := "TestSuite \"" ++ suite.id ++ "\" has no test cases",
       context := some context }] else [])
  ++ suite.cases.flatMap (fun c => validateTestCase c context)

/-- `validateIR` from the source: collect issues (version warning, empty-IR
info, per-suite issues), count per severity, and report `valid` as
`errorCount === 0`. -/
def validateIR (ir : TestIR) : IRValidationResult :=
  let issues :=
    (if ir.version ≠ 1 then
      [{ severity := .warning,
         message := "IR version " ++ toString ir.version ++ " may not be fully supported",
         context := some "root" }] else [])
    ++ (if ir.suites.length = 0 then
      [{ severity := .info, message := "IR contains no test suites",
         context := some "root" }] else [])
    ++ ir.suites.flatMap validateTestSuite
  let errorCount := (issues.filter (fun i => i.severity == .error)).length
  let warningCount := (issues.filter (fun i => i.severity == .warning)).length
  { valid := errorCount == 0, issues := issues,
    errorCount := errorCount, warningCount := warningCount }

/-! ## File-level validator (from `validation/validator.ts`) -/

/-- `ValidationMessage` from the source. -/
structure ValidationMessage where
  severity : Severity
  filePath : String
  line : Nat
  column : Nat
  message : String
  ruleId : String
deriving DecidableEq, Repr

/-- `ValidationResult` from the source. -/
structure ValidationResult where
  messages : List ValidationMessage
  errorCount : Nat
  warningCount : Nat
  infoCount : Nat
  valid : Bool
deriving DecidableEq, Repr

/-- `ValidationOptions` from the source (`none` = the field is absent). -/
structure ValidationOptions where
  strict : Option Bool := none
  enforceUniqueTestIdsPerContext : Option Bool := none
deriving DecidableEq, Repr

/-- `validateFiles` from the source.  The per-file scan `validateFile`
reads the file and walks its Babel AST, so it is abstracted as the
parameter `validateFileFn`; of the options it consumes only
`enforceUniqueTestIdsPerContext` (destructured with default `true`) and
never `strict`, hence its second argument.  The aggregation — message
concatenation, per-severity counts, and the strict-mode `valid` flag — is
modelled exactly. -/
def validateFiles (validateFileFn : String → Bool → List ValidationMessage)
    (filePaths : List String) (options : ValidationOptions) : ValidationResult :=
  let allMessages := filePaths.flatMap
    (fun p => validateFileFn p (options.enforceUniqueTestIdsPerContext.getD true))
  let errorCount := (allMessages.filter (fun m => m.severity == .error)).length
  let warningCount := (allMessages.filter (fun m => m.severity == .warning)).length
  let infoCount := (allMessages.filter (fun m => m.severity == .info)).length
  let effectiveErrorCount :=
    if options.strict.getD false then errorCount + warningCount else errorCount
  { messages := allMessages, errorCount := errorCount,
    warningCount := warningCount, infoCount := infoCount,
    valid := effectiveErrorCount == 0 }

end TestWeaver

namespace TestWeaver

/-! ## Claim theorems: the directive lexer -/

/-- If the lower-cased action string fails the `isValidStepAction` test,
the action cast yields nothing. -/
lemma stepActionOfString?_eq_none (s : String) (h : isValidStepAction s = false) :
    stepActionOfString? s = none := by
  simp only [isValidStepAction, validStepActionStrings] at h
  unfold stepActionOfString?
  split_ifs with h1 h2 h3 h4 h5 h6 h7 h8 h9 <;> simp_all

/-- **C5.** For every directive string `s`, `parseStepDirective`
(`parseStepDsl` in the source) is total — it is a plain Lean function on
all of `String`, mirroring a TS body built only from non-throwing string
primitives — and the length of its result equals the number of non-empty
`;`-separated segments of `s` (segments trimmed, empty segments
discarded), as counted by the spec-side `segmentCountSpec`. -/
theorem parseStepDsl_length_eq_segmentCount (s : String) :
    (parseStepDsl s).length = segmentCountSpec s := by
  simp [parseStepDsl, splitDirective, splitOnChar, segmentCountSpec]

/-- **C6.** A directive segment whose name is not a recognized step action
is not rejected: the step lexer yields `action := custom` with the raw
segment text retained as the value.  In contrast, a segment whose name
does not normalize to a recognized expectation type is silently dropped
by the expectation lexer.  The last two conjuncts tie the per-segment
functions to the full directive parsers. -/
theorem unknown_segment_policy (s : String) :
    (∀ p ∈ splitDirective s, isValidStepAction (stepNameOf p) = false →
      parseStepSegment p = { action := .custom, value := some p }) ∧
    (∀ p ∈ splitDirective s, normalizeExpectType (expectNameOf p) = none →
      parseExpectSegment p = none) ∧
    parseStepDsl s = (splitDirective s).map parseStepSegment ∧
    parseExpectDsl s = (splitDirective s).filterMap parseExpectSegment := by
  refine ⟨?_, ?_, rfl, rfl⟩
  · intro p _ h
    cases hb : breakAtChar ':' p with
    | none =>
      have h' : isValidStepAction (jsToLower p) = false := by
        simpa [stepNameOf, hb] using h
      simp [parseStepSegment, hb, stepActionOfString?_eq_none _ h']
    | some pr =>
      have h' : isValidStepAction (jsToLower (jsTrim pr.1)) = false := by
        simpa [stepNameOf, hb] using h
      simp [parseStepSegment, hb, stepActionOfString?_eq_none _ h']
  · intro p _ h
    cases hb : breakAtChar ':' p with
    | none =>
      have h' : normalizeExpectType p = none := by simpa [expectNameOf, hb] using h
      simp [parseExpectSegment, hb, h']
    | some pr =>
      have h' : normalizeExpectType (jsTrim pr.1) = none := by
        simpa [expectNameOf, hb] using h
      simp [parseExpectSegment, hb, h']

/-- Witness for `unknown_segment_policy` at the concrete segment
`"frobnicate:7"`. -/
theorem unknown_segment_policy_witness :
    parseStepSegment "frobnicate:7" =
      { action := .custom, value := some "frobnicate:7" } ∧
    parseExpectSegment "frobnicate:7" = none := by
  obtain ⟨h1, h2, -, -⟩ := unknown_segment_policy "frobnicate:7"
  exact ⟨h1 "frobnicate:7" (by decide) (by decide),
         h2 "frobnicate:7" (by decide) (by decide)⟩

/-- **C2.** The directive lexer has no JSON branch: a raw attribute value
that is a JSON array of action objects is fed to the semicolon string
grammar like any other string, producing a single `custom` step carrying
the raw text (and nothing at all on the expectation side) instead of the
decoded `click` step the project's DSL documentation promises. -/
theorem json_array_not_detected :
    parseStepDsl "[\x7b \"action\": \"click\" \x7d]" =
      [{ action := .custom, value := some "[\x7b \"action\": \"click\" \x7d]" }] ∧
    parseExpectDsl "[\x7b \"assert\": \"visible\" \x7d]" = [] := by decide

/-! ## Claim theorems: the concrete §8 scan scenario -/

/-- The §8 scenario markup
`<div data-test-context="login" data-test-scenario="happy-path"
data-test-route="/login">` with its three directive-bearing children, as
an element tree. -/
def loginMarkup : Element :=
  .mk [("data-test-context", "login"), ("data-test-scenario", "happy-path"),
       ("data-test-route", "/login")] 1 0
    (.cons (.mk [("data-test-id", "email"),
                 ("data-test-step", "type:user@example.com")] 2 2 .nil)
      (.cons (.mk [("data-test-id", "submit"), ("data-test-step", "click")] 3 2 .nil)
        (.cons (.mk [("data-test-id", "success-message"),
                     ("data-test-expect", "visible; text:Welcome")] 4 2 .nil)
          .nil)))

/-- **C1.** Scanning the §8 markup produces exactly one Suite with id
`"login"`, exactly one Case with id `"login__happy-path"`, type `e2e` and
route `"/login"`, exactly two Steps (`type` then `click`, in document
order, with their values and testId selectors), and exactly two
Expectations (`visible` then `text` with value `"Welcome"`), both against
the selector `testId = "success-message"`. -/
theorem scan_login_scenario :
    (scanElementsFile "Login.tsx" (.cons loginMarkup .nil)).map TestSuite.id
      = ["login"] ∧
    ((scanElementsFile "Login.tsx" (.cons loginMarkup .nil)).flatMap
        TestSuite.cases).map (fun c => (c.id, c.type, c.route))
      = [("login__happy-path", TestCaseType.e2e, some "/login")] ∧
    (((scanElementsFile "Login.tsx" (.cons loginMarkup .nil)).flatMap
        TestSuite.cases).flatMap TestCase.steps).map
          (fun s => (s.action, s.value, s.selector))
      = [(StepAction.type, some "user@example.com",
            some { type := .testId, value := "email" }),
         (StepAction.click, none, some { type := .testId, value := "submit" })] ∧
    (((scanElementsFile "Login.tsx" (.cons loginMarkup .nil)).flatMap
        TestSuite.cases).flatMap TestCase.expectations).map
          (fun e => (e.type, e.value, e.selector))
      = [(ExpectType.visible, none,
            some { type := .testId, value := "success-message" }),
         (ExpectType.text, some "Welcome",
            some { type := .testId, value := "success-message" })] := by
  decide

/-! ## Claim theorems: steps require an identifier, expectations do not -/

lemma buildStepList_fst_length (tid : String) (loc : LocationRef) :
    ∀ (ps : List ParsedStep) (si : Nat),
      (buildStepList tid loc ps si).1.length = ps.length := by
  intro ps
  induction ps with
  | nil => intro si; simp [buildStepList]
  | cons p ps ih => intro si; simp [buildStepList, ih]

lemma buildStepList_selector_isSome (tid : String) (loc : LocationRef) :
    ∀ (ps : List ParsedStep) (si : Nat),
      (buildStepList tid loc ps si).1.all (fun s => s.selector.isSome) = true := by
  intro ps
  induction ps with
  | nil => intro si; simp [buildStepList]
  | cons p ps ih => intro si; simp [buildStepList, ih]

lemma buildExpectList_fst_length (tid : Option String) (loc : LocationRef) :
    ∀ (ps : List ParsedExpectation) (ei : Nat),
      (buildExpectList tid loc ps ei).1.length = ps.length := by
  intro ps
  induction ps with
  | nil => intro ei; simp [buildExpectList]
  | cons p ps ih => intro ei; simp [buildExpectList, ih]

lemma buildExpectList_selector_none_count (tid : Option String) (loc : LocationRef) :
    ∀ (ps : List ParsedExpectation) (ei : Nat),
      ((buildExpectList tid loc ps ei).1.filter (fun e => e.selector.isNone)).length
        = if tid.isNone then ps.length else 0 := by
  intro ps
  induction ps with
  | nil => intro ei; cases tid <;> simp [buildExpectList]
  | cons p ps ih => intro ei; cases tid <;> simp [buildExpectList, ih]

lemma collectChildren_spec (children : List ChildElementData) :
    ∀ (si ei : Nat),
      (collectChildren children si ei).1.length
        = ((children.filter (fun c => c.testId.isSome)).map
            (fun c => c.steps.length)).sum ∧
      (collectChildren children si ei).2.length
        = (children.map (fun c => c.expectations.length)).sum ∧
      ((collectChildren children si ei).2.filter (fun e => e.selector.isNone)).length
        = ((children.filter (fun c => c.testId.isNone)).map
            (fun c => c.expectations.length)).sum ∧
      (collectChildren children si ei).1.all (fun s => s.selector.isSome) = true := by
  induction children with
  | nil => intro si ei; simp [collectChildren]
  | cons c rest ih =>
    intro si ei
    cases htid : c.testId with
    | none =>
      obtain ⟨ih1, ih2, ih3, ih4⟩ :=
        ih si (buildExpectList none c.location c.expectations ei).2
      refine ⟨?_, ?_, ?_, ?_⟩
      · simp [collectChildren, htid, ih1]
      · simp [collectChildren, htid, buildExpectList_fst_length, ih2]
      · simp [collectChildren, htid, buildExpectList_selector_none_count, ih3]
      · simp [collectChildren, htid, ih4]
    | some tid =>
      obtain ⟨ih1, ih2, ih3, ih4⟩ :=
        ih (buildStepList tid c.location c.steps si).2
          (buildExpectList (some tid) c.location c.expectations ei).2
      refine ⟨?_, ?_, ?_, ?_⟩
      · simp [collectChildren, htid, buildStepList_fst_length, ih1]
      · simp [collectChildren, htid, buildExpectList_fst_length, ih2]
      · simp [collectChildren, htid, buildExpectList_selector_none_count, ih3]
      · simp only [collectChildren, htid, List.all_append, Bool.and_eq_true]
        exact ⟨buildStepList_selector_isSome tid c.location c.steps si, ih4⟩

/-- **C7.** In the Case built for a context element: (1) steps come only
from descendants carrying an identifier — every step directive on an
identifier-less descendant is silently dropped; (2) every expectation is
retained, identifier or not; (3) the expectations whose selector is
omitted are exactly those of the identifier-less descendants; (4) every
step in the built Case has a selector. -/
theorem steps_dropped_expectations_kept (cd : ContextElementData) :
    (buildCase cd).steps.length
      = ((cd.children.filter (fun c => c.testId.isSome)).map
          (fun c => c.steps.length)).sum ∧
    (buildCase cd).expectations.length
      = (cd.children.map (fun c => c.expectations.length)).sum ∧
    ((buildCase cd).expectations.filter (fun e => e.selector.isNone)).length
      = ((cd.children.filter (fun c => c.testId.isNone)).map
          (fun c => c.expectations.length)).sum ∧
    (buildCase cd).steps.all (fun s => s.selector.isSome) = true := by
  have h := collectChildren_spec cd.children 0 0
  simpa [buildCase] using h

/-! ## A context-keyed insertion fold

Both `scanFile`'s suite map (one step per context element) and
`scanAllFiles`' suite map (one step per per-file suite) have the same
shape: look up the accumulator suite with the item's context key, update
it in place if present, append a fresh suite otherwise.  `keyedStep`
captures the shape; `addContextData` and `mergeSuiteInto` are definitional
instances, and `foldl_keyedStep_find?` computes the suite the fold stores
for each context key. -/

def keyedStep {β : Type} (keyb : β → String) (upd : TestSuite → β → TestSuite)
    (mk : β → TestSuite) (acc : List TestSuite) (b : β) : List TestSuite :=
  if acc.any (fun s => s.context == keyb b) then
    acc.map (fun s => if s.context == keyb b then upd s b else s)
  else acc ++ [mk b]

lemma find?_map_of_context_eq (g : TestSuite → TestSuite)
    (hg : ∀ s, (g s).context = s.context) (k : String) :
    ∀ l : List TestSuite,
      (l.map g).find? (fun s => s.context == k)
        = (l.find? (fun s => s.context == k)).map g := by
  intro l
  induction l with
  | nil => simp
  | cons t ts ih =>
    cases h : (t.context == k) with
    | true => simp [List.find?_cons, hg t, h]
    | false => simp [List.find?_cons, hg t, h, ih]

lemma any_eq_isSome_find? (p : TestSuite → Bool) :
    ∀ l : List TestSuite, l.any p = (l.find? p).isSome := by
  intro l
  induction l with
  | nil => simp
  | cons t ts ih =>
    cases h : p t with
    | true => simp [List.find?_cons, h]
    | false => simp [List.find?_cons, h, ih]

lemma find?_append_suites (p : TestSuite → Bool) :
    ∀ l₁ l₂ : List TestSuite,
      (l₁ ++ l₂).find? p
        = match l₁.find? p with
          | some s => some s
          | none => l₂.find? p := by
  intro l₁ l₂
  induction l₁ with
  | nil => simp
  | cons t ts ih =>
    cases h : p t with
    | true => simp [List.find?_cons, h]
    | false => simp [List.find?_cons, h, ih]

lemma keyedStep_find? {β : Type} (keyb : β → String)
    (upd : TestSuite → β → TestSuite) (mk : β → TestSuite)
    (hupd : ∀ s b, (upd s b).context = s.context)
    (hmk : ∀ b, (mk b).context = keyb b) (k : String)
    (acc : List TestSuite) (b : β) :
    (keyedStep keyb upd mk acc b).find? (fun s => s.context == k)
      = if keyb b == k then
          match acc.find? (fun s => s.context == k) with
          | some s => some (upd s b)
          | none => some (mk b)
        else acc.find? (fun s => s.context == k) := by
  unfold keyedStep
  cases hany : acc.any (fun s => s.context == keyb b) with
  | true =>
    rw [if_pos rfl]
    rw [find?_map_of_context_eq _
      (fun s => by by_cases h : (s.context == keyb b) = true <;> simp [h, hupd])]
    by_cases hk : (keyb b == k) = true
    · have hkeq : keyb b = k := by simpa using hk
      subst hkeq
      rw [any_eq_isSome_find?] at hany
      cases hf : acc.find? (fun s => s.context == keyb b) with
      | none => rw [hf] at hany; simp at hany
      | some s =>
        have hs := List.find?_some hf
        simp [hf, hk, hs]
        intro hh
        exact absurd (by simpa using hs) hh
    · have hk' : (keyb b == k) = false := by simpa using hk
      cases hf : acc.find? (fun s => s.context == k) with
      | none => simp [hf, hk']
      | some s =>
        have hs := List.find?_some hf
        have hsk : (s.context == keyb b) = false := by
          have h1 : s.context = k := by simpa using hs
          have h2 : ¬ keyb b = k := by simpa using hk
          simp [h1]
          exact fun hh => h2 hh.symm
        simp [hf, hk', hsk]
        intro hh
        exact absurd hh (by simpa using hsk)
  | false =>
    rw [if_neg (by simp)]
    rw [find?_append_suites]
    by_cases hk : (keyb b == k) = true
    · have hkeq : keyb b = k := by simpa using hk
      subst hkeq
      rw [any_eq_isSome_find?] at hany
      cases hf : acc.find? (fun s => s.context == keyb b) with
      | some s => rw [hf] at hany; simp at hany
      | none =>
        have hmkk : ((mk b).context == keyb b) = true := by simp [hmk b]
        simp [hf, hk, List.find?_cons, hmkk]
    · have hk' : (keyb b == k) = false := by simpa using hk
      have hmkk : ((mk b).context == k) = false := by rw [hmk b]; exact hk'
      cases hf : acc.find? (fun s => s.context == k) with
      | none => simp [hf, hk', List.find?_cons, hmkk]
      | some s => simp [hf, hk']

/-- Projection of the keyed fold onto one context key `k`: the suite stored
for `k` is the created suite of the first `k`-keyed item, updated once per
later `k`-keyed item, independent of every other key. -/
lemma foldl_keyedStep_find? {β : Type} (keyb : β → String)
    (upd : TestSuite → β → TestSuite) (mk : β → TestSuite)
    (hupd : ∀ s b, (upd s b).context = s.context)
    (hmk : ∀ b, (mk b).context = keyb b) (k : String) :
    ∀ (l : List β) (acc : List TestSuite),
      (l.foldl (keyedStep keyb upd mk) acc).find? (fun s => s.context == k)
        = match acc.find? (fun s => s.context == k) with
          | some s => some ((l.filter (fun b => keyb b == k)).foldl upd s)
          | none =>
            match l.filter (fun b => keyb b == k) with
            | [] => none
            | b :: bs => some (bs.foldl upd (mk b)) := by
  intro l
  induction l with
  | nil =>
    intro acc
    cases hf : acc.find? (fun s => s.context == k) <;> simp [hf]
  | cons b l ih =>
    intro acc
    rw [List.foldl_cons, ih (keyedStep keyb upd mk acc b),
      keyedStep_find? keyb upd mk hupd hmk k acc b]
    cases hb : (keyb b == k) with
    | true =>
      rw [if_pos rfl]
      cases hf : acc.find? (fun s => s.context == k) with
      | some s => simp [hf, List.filter_cons, hb]
      | none => simp [hf, List.filter_cons, hb]
    | false =>
      rw [if_neg (by simp)]
      cases hf : acc.find? (fun s => s.context == k) with
      | some s => simp [hf, List.filter_cons, hb]
      | none => simp [hf, List.filter_cons, hb]

/-- Spec-side first-occurrence key insertion ("merge by context key"). -/
def insKey (a : List String) (k : String) : List String :=
  if a.any (fun x => x == k) then a else a ++ [k]

/-- Spec-side first-occurrence deduplication of a key list. -/
def dedupKeys (ks : List String) : List String := ks.foldl insKey []

lemma keyedStep_map_context {β : Type} (keyb : β → String)
    (upd : TestSuite → β → TestSuite) (mk : β → TestSuite)
    (hupd : ∀ s b, (upd s b).context = s.context)
    (hmk : ∀ b, (mk b).context = keyb b) (acc : List TestSuite) (b : β) :
    (keyedStep keyb upd mk acc b).map (fun s => s.context)
      = insKey (acc.map (fun s => s.context)) (keyb b) := by
  have hcond : ((acc.map (fun s => s.context)).any (fun x => x == keyb b))
      = (acc.any fun s => s.context == keyb b) := by
    induction acc with
    | nil => rfl
    | cons t ts ih => simp only [List.map_cons, List.any_cons, ih]
  unfold keyedStep insKey
  rw [hcond]
  cases hany : acc.any (fun s => s.context == keyb b) with
  | true =>
    rw [if_pos rfl, if_pos rfl, List.map_map]
    apply List.map_congr_left
    intro s _
    by_cases h : s.context = keyb b
    · simp [h, hupd]
    · simp [h]
  | false =>
    rw [if_neg (by simp), if_neg (by simp)]
    simp [hmk b]

lemma foldl_keyedStep_map_context {β : Type} (keyb : β → String)
    (upd : TestSuite → β → TestSuite) (mk : β → TestSuite)
    (hupd : ∀ s b, (upd s b).context = s.context)
    (hmk : ∀ b, (mk b).context = keyb b) :
    ∀ (l : List β) (acc : List TestSuite),
      (l.foldl (keyedStep keyb upd mk) acc).map (fun s => s.context)
        = (l.map keyb).foldl insKey (acc.map (fun s => s.context)) := by
  intro l
  induction l with
  | nil => intro acc; rfl
  | cons b l ih =>
    intro acc
    rw [List.foldl_cons, ih, List.map_cons, List.foldl_cons,
      keyedStep_map_context keyb upd mk hupd hmk]

lemma insKey_nodup (a : List String) (k : String) (h : a.Nodup) :
    (insKey a k).Nodup := by
  unfold insKey
  cases hany : a.any (fun x => x == k) with
  | true => rw [if_pos rfl]; exact h
  | false =>
    rw [if_neg (by simp)]
    have hk : k ∉ a := by
      intro hmem
      have hx : a.any (fun x => x == k) = true := List.any_eq_true.mpr ⟨k, hmem, by simp⟩
      rw [hany] at hx
      exact Bool.false_ne_true hx
    simp [List.nodup_append, h, hk]

lemma foldl_insKey_nodup :
    ∀ (ks : List String) (a : List String), a.Nodup → (ks.foldl insKey a).Nodup := by
  intro ks
  induction ks with
  | nil => intro a h; exact h
  | cons k ks ih => intro a h; exact ih _ (insKey_nodup a k h)

lemma dedupKeys_nodup (ks : List String) : (dedupKeys ks).Nodup :=
  foldl_insKey_nodup ks [] List.nodup_nil

/-- In a suite list with pairwise-distinct contexts, `find?` on a member's
own context returns exactly that member. -/
lemma find?_self_of_nodup_context :
    ∀ (l : List TestSuite), ((l.map (fun s => s.context)).Nodup) →
      ∀ S ∈ l, l.find? (fun s => s.context == S.context) = some S := by
  intro l
  induction l with
  | nil => intro _ S hS; cases hS
  | cons t ts ih =>
    intro h S hS
    rw [List.map_cons, List.nodup_cons] at h
    cases hS with
    | head => simp [List.find?_cons]
    | tail _ hS' =>
      have hne : (t.context == S.context) = false := by
        have : S.context ∈ ts.map (fun s => s.context) := List.mem_map_of_mem _ hS'
        have hx : ¬ t.context = S.context := fun he => h.1 (he ▸ this)
        simpa using hx
      simp [List.find?_cons, hne, ih h.2 S hS']

/-! ## Claim theorems: repeated (context, scenario) pairs within one file -/

/-- The update `scanFile` applies to an already-registered suite: push the
freshly built case (never merge with an existing case). -/
def scanUpd (s : TestSuite) (cd : ContextElementData) : TestSuite :=
  { s with cases := s.cases ++ [buildCase cd] }

/-- The suite `scanFile` creates on first sight of a context. -/
def scanMk (filePath : String) (cd : ContextElementData) : TestSuite :=
  { id := cd.context, context := cd.context,
    sourceFiles := [sourceRefFor filePath], cases := [buildCase cd] }

lemma addContextData_eq_keyedStep (filePath : String) :
    addContextData filePath
      = keyedStep (fun cd => cd.context) scanUpd (scanMk filePath) := rfl

lemma scanUpd_foldl :
    ∀ (cds : List ContextElementData) (s : TestSuite),
      cds.foldl scanUpd s = { s with cases := s.cases ++ cds.map buildCase } := by
  intro cds
  induction cds with
  | nil => intro s; simp [scanUpd]
  | cons cd cds ih => intro s; simp [scanUpd, ih]

lemma buildTestSuites_find? (filePath : String) (ces : List ContextElementData)
    (k : String) :
    (buildTestSuites filePath ces).find? (fun s => s.context == k)
      = match ces.filter (fun cd => cd.context == k) with
        | [] => none
        | cd :: cds =>
          some { id := cd.context, context := cd.context,
                 sourceFiles := [sourceRefFor filePath],
                 cases := (cd :: cds).map buildCase } := by
  have h := foldl_keyedStep_find? (fun cd => cd.context) scanUpd (scanMk filePath)
    (fun s cd => rfl) (fun cd => rfl) k ces []
  rw [buildTestSuites, addContextData_eq_keyedStep, h]
  simp only [List.find?_nil]
  cases hf : ces.filter (fun cd => cd.context == k) with
  | nil => rfl
  | cons cd cds =>
    show some (cds.foldl scanUpd (scanMk filePath cd)) = some _
    rw [scanUpd_foldl]
    simp [scanMk]

lemma buildTestSuites_map_context (filePath : String)
    (ces : List ContextElementData) :
    (buildTestSuites filePath ces).map (fun s => s.context)
      = dedupKeys (ces.map (fun cd => cd.context)) := by
  have h := foldl_keyedStep_map_context (fun cd => cd.context) scanUpd (scanMk filePath)
    (fun s cd => rfl) (fun cd => rfl) ces []
  rw [buildTestSuites, addContextData_eq_keyedStep, h]
  rfl

/-- Two context elements with the same (context, scenario) pair `(a, s)` in
one file, each with one step-bearing child. -/
def dupPairRoots : ElementList :=
  .cons (.mk [("data-test-context", "a"), ("data-test-scenario", "s")] 1 0
    (.cons (.mk [("data-test-id", "x"), ("data-test-step", "click")] 2 2 .nil) .nil))
  (.cons (.mk [("data-test-context", "a"), ("data-test-scenario", "s")] 5 0
    (.cons (.mk [("data-test-id", "y"), ("data-test-step", "click")] 6 2 .nil) .nil))
  .nil)

/-- **C3 (counterexample).** Scanning a file in which the pair `(a, s)`
appears on two context elements yields TWO cases with id `"a__s"`, one
step in each — not a single Case with the second occurrence's steps
appended to the first's. -/
theorem duplicate_pair_not_merged :
    (((scanElementsFile "Form.tsx" dupPairRoots).flatMap TestSuite.cases).map
        (fun c => (c.id, c.steps.length))) = [("a__s", 1), ("a__s", 1)] ∧
    ¬ ((((scanElementsFile "Form.tsx" dupPairRoots).flatMap TestSuite.cases).filter
        (fun c => c.id == "a__s")).length = 1) := by decide

/-- **C3 (amended).** Within one scanned file, every occurrence of a
(context, scenario) pair — indeed every context element — contributes its
own Case, pushed onto its context's suite in document order; a repeated
pair therefore yields two Cases with the same id, and nothing is appended
to or merged into the first occurrence's Case. -/
theorem scanFile_one_case_per_context_element (filePath : String)
    (roots : ElementList) (S : TestSuite)
    (hS : S ∈ scanElementsFile filePath roots) :
    S.id = S.context ∧ S.sourceFiles = [sourceRefFor filePath] ∧
    S.cases = ((contextElementsOf filePath roots).filter
        (fun cd => cd.context == S.context)).map buildCase := by
  have hnodup : ((scanElementsFile filePath roots).map (fun s => s.context)).Nodup := by
    rw [scanElementsFile, buildTestSuites_map_context]
    exact dedupKeys_nodup _
  have hfind := find?_self_of_nodup_context _ hnodup S hS
  rw [scanElementsFile, buildTestSuites_find?] at hfind
  cases hf : (contextElementsOf filePath roots).filter
      (fun cd => cd.context == S.context) with
  | nil => rw [hf] at hfind; cases hfind
  | cons cd cds =>
    rw [hf] at hfind
    have heq := Option.some.inj hfind
    refine ⟨?_, ?_, ?_⟩
    · rw [← heq]
    · rw [← heq]
    · rw [← heq]

/-- A one-context file for the witness below. -/
def w3Roots : ElementList :=
  .cons (.mk [("data-test-context", "a")] 1 0 .nil) .nil

/-- The suite the scan of `w3Roots` produces. -/
def w3Suite : TestSuite :=
  { id := "a", context := "a", sourceFiles := [sourceRefFor "W.tsx"],
    cases := [{ id := "a__default", context := "a", scenario := "default",
                type := .ui, route := none,
                definedAt := [{ filePath := "W.tsx", line := 1, column := 0,
                                via := .attrib, raw := some "context=a" }],
                steps := [], expectations := [] }] }

/-- Witness for `scanFile_one_case_per_context_element` on the concrete
file `w3Roots`. -/
theorem scanFile_one_case_per_context_element_witness :
    w3Suite ∈ scanElementsFile "W.tsx" w3Roots ∧
    w3Suite.cases = ((contextElementsOf "W.tsx" w3Roots).filter
        (fun cd => cd.context == w3Suite.context)).map buildCase := by
  have hmem : w3Suite ∈ scanElementsFile "W.tsx" w3Roots := by decide
  exact ⟨hmem,
    (scanFile_one_case_per_context_element "W.tsx" w3Roots w3Suite hmem).2.2⟩

/-! ## Claim theorems: the cross-file merge policy -/

/-- The update `scanAllFiles` applies when a later suite shares an
existing suite's context: cases deduplicated by id, source files
deduplicated by file path. -/
def mergeUpd (e s : TestSuite) : TestSuite :=
  { e with cases := insertCasesDedup e.cases s.cases,
           sourceFiles := insertSourcesDedup e.sourceFiles s.sourceFiles }

lemma mergeSuiteInto_eq_keyedStep :
    mergeSuiteInto = keyedStep (fun s => s.context) mergeUpd (fun s => s) := rfl

lemma mergeUpd_foldl :
    ∀ (ss : List TestSuite) (s : TestSuite),
      ss.foldl mergeUpd s
        = { s with
            cases := (ss.map (fun x => x.cases)).foldl insertCasesDedup s.cases,
            sourceFiles := (ss.map (fun x => x.sourceFiles)).foldl
              insertSourcesDedup s.sourceFiles } := by
  intro ss
  induction ss with
  | nil => intro s; rfl
  | cons t ts ih =>
    intro s
    rw [List.foldl_cons, ih (mergeUpd s t)]
    rfl

/-- Spec-side, from the claim's words: the merged suite's case list — the
first file defining the context contributes its cases wholesale, and a
later file's case is appended only when no case with that id is already
present (first-seen wins, no appending across files). -/
def crossFileCases : List (List TestCase) → List TestCase
  | [] => []
  | first :: rest => rest.foldl insertCasesDedup first

/-- Spec-side, from the claim's words: the union of source files
deduplicated by `filePath`, first occurrence winning. -/
def dedupByFilePath (sfs : List SourceRef) : List SourceRef :=
  sfs.foldl insertSourceDedup []

lemma foldl_insertSourceDedup_of_nodup :
    ∀ (l acc : List SourceRef),
      ((l.map (fun sf => sf.filePath)).Nodup) →
      (∀ sf ∈ l, acc.any (fun e => e.filePath == sf.filePath) = false) →
      l.foldl insertSourceDedup acc = acc ++ l := by
  intro l
  induction l with
  | nil => intro acc _ _; simp
  | cons sf l ih =>
    intro acc hnd hacc
    rw [List.map_cons, List.nodup_cons] at hnd
    rw [List.foldl_cons]
    have h1 : insertSourceDedup acc sf = acc ++ [sf] := by
      unfold insertSourceDedup
      rw [if_neg (by simp [hacc sf (List.mem_cons_self sf l)])]
    rw [h1, ih (acc ++ [sf]) hnd.2 ?_]
    · simp
    · intro sf' hsf'
      rw [List.any_append]
      have ha := hacc sf' (List.mem_cons_of_mem _ hsf')
      have hb : (sf.filePath == sf'.filePath) = false := by
        have hm : sf'.filePath ∈ l.map (fun x => x.filePath) :=
          List.mem_map_of_mem _ hsf'
        have hne : ¬ sf.filePath = sf'.filePath := fun he => hnd.1 (he ▸ hm)
        simpa using hne
      simp [ha, hb]

lemma foldl_flatten_eq {α β : Type} (g : α → β → α) :
    ∀ (L : List (List β)) (a : α),
      L.foldl (fun acc l => l.foldl g acc) a = (L.flatten).foldl g a := by
  intro L
  induction L with
  | nil => intro a; rfl
  | cons l L ih =>
    intro a
    rw [List.foldl_cons, List.flatten_cons, List.foldl_append, ih]

lemma filter_context_eq_nil (k : String) :
    ∀ (l : List TestSuite), k ∉ l.map (fun s => s.context) →
      l.filter (fun s => s.context == k) = [] := by
  intro l
  induction l with
  | nil => intro _; rfl
  | cons t ts ih =>
    intro h
    rw [List.map_cons] at h
    have h1 : (t.context == k) = false := by
      have hx : ¬ t.context = k :=
        fun he => h (by rw [he]; exact List.mem_cons_self _ _)
      simpa using hx
    rw [List.filter_cons]
    simp [h1, ih (fun hm => h (List.mem_cons_of_mem _ hm))]

lemma filter_eq_toList_find? (k : String) :
    ∀ (fr : List TestSuite), ((fr.map (fun s => s.context)).Nodup) →
      fr.filter (fun s => s.context == k)
        = (fr.find? (fun s => s.context == k)).toList := by
  intro fr
  induction fr with
  | nil => intro _; rfl
  | cons t ts ih =>
    intro h
    rw [List.map_cons, List.nodup_cons] at h
    cases hc : (t.context == k) with
    | true =>
      have hk : k ∉ ts.map (fun s => s.context) := by
        have ht : t.context = k := by simpa using hc
        rw [← ht]; exact h.1
      simp [List.filter_cons, List.find?_cons, hc, filter_context_eq_nil k ts hk]
    | false =>
      simp [List.filter_cons, List.find?_cons, hc, ih h.2]

lemma flatten_filter_eq_filterMap (k : String) :
    ∀ (frs : List (List TestSuite)),
      (∀ fr ∈ frs, ((fr.map (fun s => s.context)).Nodup)) →
      frs.flatten.filter (fun s => s.context == k)
        = frs.filterMap (fun fr => fr.find? (fun s => s.context == k)) := by
  intro frs
  induction frs with
  | nil => intro _; rfl
  | cons fr frs ih =>
    intro h
    rw [List.flatten_cons, List.filter_append,
      filter_eq_toList_find? k fr (h fr (List.mem_cons_self _ _)),
      List.filterMap_cons, ih (fun fr' hm => h fr' (List.mem_cons_of_mem _ hm))]
    cases hf : fr.find? (fun s => s.context == k) <;> simp [hf]

lemma mergeFileFragments_find? (frs : List (List TestSuite)) (k : String) :
    (mergeFileFragments frs).find? (fun s => s.context == k)
      = match frs.flatten.filter (fun s => s.context == k) with
        | [] => none
        | s :: ss => some (ss.foldl mergeUpd s) := by
  have h := foldl_keyedStep_find? (fun s => s.context) mergeUpd (fun s => s)
    (fun s b => rfl) (fun b => rfl) k frs.flatten []
  rw [mergeFileFragments, mergeSuiteInto_eq_keyedStep, h, List.find?_nil]
  cases hfo : List.filter (fun s => s.context == k) frs.flatten with
  | nil => rfl
  | cons s ss => rfl

lemma mergeFileFragments_map_context (frs : List (List TestSuite)) :
    (mergeFileFragments frs).map (fun s => s.context)
      = dedupKeys (frs.flatten.map (fun s => s.context)) := by
  have h := foldl_keyedStep_map_context (fun s => s.context) mergeUpd (fun s => s)
    (fun s b => rfl) (fun b => rfl) frs.flatten []
  rw [mergeFileFragments, mergeSuiteInto_eq_keyedStep, h]
  rfl

/-- **C4.** The cross-file merge: suites with the same context key merge
into one suite per key (first-occurrence order); the merged suite's
source files are the union of its contributors' source files deduplicated
by `filePath`; its cases are the first contributing file's cases followed
by each later file's cases whose id is not already present — a later
occurrence of an id already produced by an earlier file is dropped
entirely (first-seen wins, no appending across files).  The hypotheses
say the fragments are shaped as `scanFile` produces them: within a
fragment, suites have pairwise-distinct contexts and each suite's source
files have pairwise-distinct paths. -/
theorem cross_file_merge_policy (frs : List (List TestSuite))
    (hsf : ∀ fr ∈ frs, ∀ s ∈ fr, ((s.sourceFiles.map (fun sf => sf.filePath)).Nodup))
    (hctx : ∀ fr ∈ frs, ((fr.map (fun s => s.context)).Nodup)) :
    (mergeFileFragments frs).map (fun s => s.context)
        = dedupKeys (frs.flatten.map (fun s => s.context)) ∧
    ∀ S ∈ mergeFileFragments frs,
      S.sourceFiles = dedupByFilePath
          ((frs.flatten.filter (fun s => s.context == S.context)).flatMap
            (fun s => s.sourceFiles)) ∧
      S.cases = crossFileCases
          (frs.filterMap (fun fr =>
            (fr.find? (fun s => s.context == S.context)).map (fun s => s.cases))) := by
  refine ⟨mergeFileFragments_map_context frs, ?_⟩
  intro S hS
  have hnodup : ((mergeFileFragments frs).map (fun s => s.context)).Nodup := by
    rw [mergeFileFragments_map_context]; exact dedupKeys_nodup _
  have hfind := find?_self_of_nodup_context _ hnodup S hS
  rw [mergeFileFragments_find?] at hfind
  have hgroup := flatten_filter_eq_filterMap S.context frs hctx
  cases hf : frs.flatten.filter (fun s => s.context == S.context) with
  | nil => rw [hf] at hfind; cases hfind
  | cons s0 ss =>
    rw [hf] at hfind
    have heq := Option.some.inj hfind
    rw [mergeUpd_foldl] at heq
    have hs0 : s0 ∈ frs.flatten := by
      have : s0 ∈ frs.flatten.filter (fun s => s.context == S.context) := by
        rw [hf]; exact List.mem_cons_self _ _
      exact List.mem_of_mem_filter this
    have hs0nd : ((s0.sourceFiles.map (fun sf => sf.filePath)).Nodup) := by
      obtain ⟨fr, hfr, hmem⟩ := List.mem_flatten.mp hs0
      exact hsf fr hfr s0 hmem
    have hcases : S.cases
        = (ss.map (fun x => x.cases)).foldl insertCasesDedup s0.cases := by
      rw [← heq]
    have hsrcs : S.sourceFiles
        = (ss.map (fun x => x.sourceFiles)).foldl insertSourcesDedup s0.sourceFiles := by
      rw [← heq]
    have hbase : s0.sourceFiles.foldl insertSourceDedup ([] : List SourceRef)
        = s0.sourceFiles := by
      have hb := foldl_insertSourceDedup_of_nodup s0.sourceFiles [] hs0nd
        (fun sf _ => rfl)
      simpa using hb
    constructor
    · rw [hsrcs, dedupByFilePath, List.flatMap_cons, List.foldl_append, hbase,
        List.flatMap_def, ← foldl_flatten_eq]
      rfl
    · rw [hcases, ← List.map_filterMap, ← hgroup, hf]
      rfl

/-- Two per-file fragments both defining context `"login"` and the case id
`"login__happy-path"` (with different bodies), for the witness below. -/
def w4FragA : List TestSuite :=
  [{ id := "login", context := "login",
     sourceFiles := [{ filePath := "A.tsx", framework := .react, language := .tsx }],
     cases := [{ id := "login__happy-path", context := "login",
                 scenario := "happy-path", type := .e2e, route := some "/login",
                 definedAt := [], steps := [], expectations := [] }] }]

def w4FragB : List TestSuite :=
  [{ id := "login", context := "login",
     sourceFiles := [{ filePath := "B.tsx", framework := .react, language := .tsx }],
     cases := [{ id := "login__happy-path", context := "login",
                 scenario := "happy-path", type := .ui, route := none,
                 definedAt := [], steps := [], expectations := [] }] }]

/-- The suite `scanAllFiles` produces for the two fragments: the first
file's case wins, both source files are kept. -/
def w4Merged : TestSuite :=
  { id := "login", context := "login",
    sourceFiles := [{ filePath := "A.tsx", framework := .react, language := .tsx },
                    { filePath := "B.tsx", framework := .react, language := .tsx }],
    cases := [{ id := "login__happy-path", context := "login",
                scenario := "happy-path", type := .e2e, route := some "/login",
                definedAt := [], steps := [], expectations := [] }] }

/-- Witness for `cross_file_merge_policy` on the two concrete fragments:
the later file's same-id case is dropped, the source files are unioned. -/
theorem cross_file_merge_policy_witness :
    w4Merged ∈ mergeFileFragments [w4FragA, w4FragB] ∧
    w4Merged.sourceFiles = dedupByFilePath
        (([w4FragA, w4FragB].flatten.filter
          (fun s => s.context == w4Merged.context)).flatMap
            (fun s => s.sourceFiles)) ∧
    w4Merged.cases = crossFileCases
        ([w4FragA, w4FragB].filterMap (fun fr =>
          (fr.find? (fun s => s.context == w4Merged.context)).map
            (fun s => s.cases))) := by
  have h := cross_file_merge_policy [w4FragA, w4FragB] (by decide) (by decide)
  have hmem : w4Merged ∈ mergeFileFragments [w4FragA, w4FragB] := by decide
  obtain ⟨hsrc, hcase⟩ := h.2 w4Merged hmem
  exact ⟨hmem, hsrc, hcase⟩

/-! ## Claim theorems: the IR validator's missing-value warning -/

lemma infixChars_append_left (needle : List Char) :
    ∀ (h1 h2 : List Char), infixChars needle h2 = true →
      infixChars needle (h1 ++ h2) = true := by
  intro h1
  induction h1 with
  | nil => intro h2 h; simpa using h
  | cons c cs ih =>
    intro h2 h
    simp only [List.cons_append, infixChars, Bool.or_eq_true]
    exact Or.inr (ih h2 h)

/-- `includes` is monotone under prepending: if the needle occurs in `b`,
it occurs in `a ++ b`. -/
lemma containsSubstr_append_left (a b needle : String)
    (h : containsSubstr b needle = true) :
    containsSubstr (a ++ b) needle = true := by
  unfold containsSubstr at h ⊢
  rw [String.data_append]
  exact infixChars_append_left needle.data a.data b.data h

/-- An IR holding one suite with one case with one `type`-action step that
has an id and a selector but no value; every other field is a parameter. -/
def c8IR (sid sctx cid cctx cscn stId genAt root : String)
    (sfs : List SourceRef) (ct : TestCaseType) (rt : Option String)
    (da : List LocationRef) (sel : Selector) (src : Option LocationRef) : TestIR :=
  { version := 1
    generatedAt := genAt
    sourceRoot := root
    suites := [{ id := sid
                 context := sctx
                 sourceFiles := sfs
                 cases := [{ id := cid
                             context := cctx
                             scenario := cscn
                             type := ct
                             route := rt
                             definedAt := da
                             steps := [{ id := stId
                                         action := .type
                                         selector := some sel
                                         value := none
                                         source := src }]
                             expectations := [] }] }] }

/-- **C8.** For an IR whose single suite holds a single case with a single
`type`-action step that has an id, a selector and no value (and all
entity ids/names non-empty), `validateIR` reports exactly one warning
whose message contains `"missing a value"`, its `errorCount` stays `0`
and `valid` stays `true`; and for every IR whatsoever, `valid` is exactly
`errorCount == 0`, so warnings never flip validity inside this function. -/
theorem type_step_missing_value_warning
    (sid sctx cid cctx cscn stId genAt root : String)
    (sfs : List SourceRef) (ct : TestCaseType) (rt : Option String)
    (da : List LocationRef) (sel : Selector) (src : Option LocationRef)
    (h1 : sid ≠ "") (h2 : sctx ≠ "") (h3 : cid ≠ "") (h4 : cctx ≠ "")
    (h5 : cscn ≠ "") (h6 : stId ≠ "") :
    (validateIR (c8IR sid sctx cid cctx cscn stId genAt root sfs ct rt da
      sel src)).errorCount = 0 ∧
    (validateIR (c8IR sid sctx cid cctx cscn stId genAt root sfs ct rt da
      sel src)).valid = true ∧
    ((validateIR (c8IR sid sctx cid cctx cscn stId genAt root sfs ct rt da
      sel src)).issues.filter (fun i =>
        i.severity == Severity.warning
          && containsSubstr i.message "missing a value")).length = 1 ∧
    (∀ ir2 : TestIR, (validateIR ir2).valid = ((validateIR ir2).errorCount == 0)) := by
  have hmsg : containsSubstr
      ("Step \"" ++ stId ++ "\" with action \"" ++ actionString .type
        ++ "\" is missing a value") "missing a value" = true :=
    containsSubstr_append_left _ "\" is missing a value" _ (by decide)
  have hsup : StepAction.type ∈ supportedStepActions := by decide
  have hreq : StepAction.type ∈ actionsRequiringValue := by decide
  have hstep : ∀ cc : String, validateStep
      { id := stId, action := .type, selector := some sel, value := none,
        source := src } cc
      = [{ severity := .warning,
           message := "Step \"" ++ stId ++ "\" with action \""
             ++ actionString .type ++ "\" is missing a value",
           context := some cc }] := by
    intro cc
    simp [validateStep, h6, hsup, hreq]
  have hissues : (validateIR (c8IR sid sctx cid cctx cscn stId genAt root sfs
      ct rt da sel src)).issues
      = [{ severity := .warning,
           message := "Step \"" ++ stId ++ "\" with action \""
             ++ actionString .type ++ "\" is missing a value",
           context := some ("suite \"" ++ sid ++ "\"" ++ " > case \""
             ++ cid ++ "\"") }] := by
    simp [validateIR, c8IR, validateTestSuite, validateTestCase,
      h1, h2, h3, h4, h5, hstep]
  have hec : ∀ ir2 : TestIR, (validateIR ir2).errorCount
      = ((validateIR ir2).issues.filter
          (fun i => i.severity == Severity.error)).length := fun _ => rfl
  have hvalid : ∀ ir2 : TestIR, (validateIR ir2).valid
      = ((validateIR ir2).errorCount == 0) := fun _ => rfl
  have he0 : (validateIR (c8IR sid sctx cid cctx cscn stId genAt root sfs
      ct rt da sel src)).errorCount = 0 := by
    rw [hec, hissues]
    simp
  refine ⟨he0, ?_, ?_, hvalid⟩
  · rw [hvalid, he0]
    rfl
  · rw [hissues]
    simp [hmsg]

/-- Witness for `type_step_missing_value_warning` at a concrete IR. -/
theorem type_step_missing_value_warning_witness :
    (validateIR (c8IR "login" "login" "login__d" "login" "d" "step-1" "t" "/"
      [] .ui none [] { type := .testId, value := "email" } none)).errorCount = 0 ∧
    (validateIR (c8IR "login" "login" "login__d" "login" "d" "step-1" "t" "/"
      [] .ui none [] { type := .testId, value := "email" } none)).valid = true ∧
    ((validateIR (c8IR "login" "login" "login__d" "login" "d" "step-1" "t" "/"
      [] .ui none [] { type := .testId, value := "email" } none)).issues.filter
        (fun i => i.severity == Severity.warning
          && containsSubstr i.message "missing a value")).length = 1 := by
  have h := type_step_missing_value_warning "login" "login" "login__d" "login"
    "d" "step-1" "t" "/" [] .ui none [] { type := .testId, value := "email" }
    none (by decide) (by decide) (by decide) (by decide) (by decide) (by decide)
  exact ⟨h.1, h.2.1, h.2.2.1⟩

/-! ## Claim theorems: idempotent writes -/

/-- **C9.** `writeFileIfChanged` compares the new content byte-for-byte
with any existing file: when the existing content equals the new content
the write is skipped — it returns `false` and the file system is returned
unchanged; when the file does not exist, or exists with different
content, the write is performed and it returns `true`. -/
theorem writeFileIfChanged_idempotent (fs : FileSystem) (p c : String) :
    (fs p = some c → writeFileIfChanged fs p c = (fs, false)) ∧
    (fs p = none → writeFileIfChanged fs p c = (writeFs fs p c, true)) ∧
    (∀ e, fs p = some e → e ≠ c →
      writeFileIfChanged fs p c = (writeFs fs p c, true)) := by
  refine ⟨?_, ?_, ?_⟩
  · intro h; simp [writeFileIfChanged, h]
  · intro h; simp [writeFileIfChanged, h]
  · intro e h hne; simp [writeFileIfChanged, h, hne]

/-- A one-file file system for the witness below. -/
def w9fs : FileSystem := fun q => if q = "a.txt" then some "old" else none

/-- Witness for `writeFileIfChanged_idempotent`: skip on equal content,
write on a missing file, write on changed content. -/
theorem writeFileIfChanged_idempotent_witness :
    writeFileIfChanged w9fs "a.txt" "old" = (w9fs, false) ∧
    writeFileIfChanged w9fs "b.txt" "new" = (writeFs w9fs "b.txt" "new", true) ∧
    writeFileIfChanged w9fs "a.txt" "new" = (writeFs w9fs "a.txt" "new", true) := by
  refine ⟨?_, ?_, ?_⟩
  · exact (writeFileIfChanged_idempotent w9fs "a.txt" "old").1 (by decide)
  · exact (writeFileIfChanged_idempotent w9fs "b.txt" "new").2.1 (by decide)
  · exact (writeFileIfChanged_idempotent w9fs "a.txt" "new").2.2 "old"
      (by decide) (by decide)

/-! ## Claim theorems: file-level validation counts and strict mode -/

/-- **C10.** `validateFiles` collects the per-file messages (passing only
the `enforceUniqueTestIdsPerContext` flag down, never `strict`); its
`errorCount`/`warningCount`/`infoCount` are exactly the per-severity
counts of the collected messages whatever the options are; `valid` is
`errorCount == 0` normally and `(errorCount + warningCount) == 0` when
`strict` is set — strict mode changes only the `valid` flag, never the
messages (last conjunct) nor the counts. -/
theorem validateFiles_counts_and_strict
    (validateFileFn : String → Bool → List ValidationMessage)
    (filePaths : List String) (options : ValidationOptions) :
    (validateFiles validateFileFn filePaths options).messages
        = filePaths.flatMap (fun p => validateFileFn p
            (options.enforceUniqueTestIdsPerContext.getD true)) ∧
    (validateFiles validateFileFn filePaths options).errorCount
        = ((validateFiles validateFileFn filePaths options).messages.filter
            (fun m => m.severity == Severity.error)).length ∧
    (validateFiles validateFileFn filePaths options).warningCount
        = ((validateFiles validateFileFn filePaths options).messages.filter
            (fun m => m.severity == Severity.warning)).length ∧
    (validateFiles validateFileFn filePaths options).infoCount
        = ((validateFiles validateFileFn filePaths options).messages.filter
            (fun m => m.severity == Severity.info)).length ∧
    (validateFiles validateFileFn filePaths options).valid
        = ((if options.strict.getD false
            then (validateFiles validateFileFn filePaths options).errorCount
              + (validateFiles validateFileFn filePaths options).warningCount
            else (validateFiles validateFileFn filePaths options).errorCount)
          == 0) ∧
    (∀ s1 s2 : Option Bool,
      (validateFiles validateFileFn filePaths
        { options with strict := s1 }).messages
      = (validateFiles validateFileFn filePaths
        { options with strict := s2 }).messages) :=
  ⟨rfl, rfl, rfl, rfl, rfl, fun _ _ => rfl⟩

end TestWeaver
